import Mathlib

/-!
Shallow embedding of `src/bag/simulation/nutbin.py` (class `NutBinParser`):
the nutbin waveform parser that reads analysis blocks from a binary dump and
reconstructs them into multi-dimensional analysis data.

Modelling conventions:
* Python byte-stream lines are modelled as token lists (`List String`), one
  list per header line, exactly as `str.split()` would produce them.
* numpy 1-D arrays of (possibly complex) samples are modelled as `List CVal`
  with `CVal = ℚ × ℚ` (real and imaginary part); real arrays carry a zero
  imaginary part.  Reconstruction-side arrays (which may contain NaN padding)
  are modelled as `List RVal` where `RVal` is a rational extended with a NaN
  marker, so that the placement of NaN padding is expressible exactly.
* numpy N-d arrays are modelled by their shape together with their row-major
  flat contents (`NDArr`), which is exactly what `np.stack`/`np.reshape`
  preserve.
* Python dicts are modelled as association lists in insertion order.
* Core `String` functions that are not kernel-reducible (`startsWith`,
  `map`, `<`) are re-implemented on the underlying character lists with the
  same semantics.
-/

namespace NutBin

/-- A reconstruction-side sample: either NaN (used for padding ragged runs,
`np.pad(..., constant_values=np.nan)`) or an ordinary numeric value. -/
inductive RVal where
  | nan : RVal
  | val (q : ℚ) : RVal
deriving DecidableEq, Repr

/-- A raw binary sample: real and imaginary part (`float` samples have a zero
imaginary part). -/
abbrev CVal : Type := ℚ × ℚ

/-- A numpy ndarray, by shape and row-major flat contents: `np.stack` of
equal-length rows concatenates them, and `np.reshape` only changes the shape
while keeping the row-major flat contents. -/
structure NDArr where
  shape : List ℕ
  flat : List RVal
deriving DecidableEq, Repr

/-- One value of the `data` dict built by `convert_to_analysis_data`:
sweep-coordinate vectors (per-axis values from the grid detector in the
regular case, the raw python list `swp_combo_list` in the degenerate case),
an unreshaped 1-D signal vector, or a reshaped N-d signal array. -/
inductive Entry where
  | axisVals (vs : List ℤ) : Entry
  | axisRaw (vss : List (List ℤ)) : Entry
  | vec (v : List RVal) : Entry
  | arr (a : NDArr) : Entry
deriving DecidableEq, Repr

/-- One run's signal map (a python dict in insertion order). -/
abbrev Run : Type := List (String × List RVal)

/-- One accumulated group `ana_dict[ana_type][sim_env]`: the ordered run
list, the parallel list of outer sweep combos, and the inner sweep name. -/
structure NbGroup where
  data : List Run
  swp_combos : List (List ℤ)
  inner_sweep : String
deriving DecidableEq, Repr

/-- The result of `convert_to_analysis_data`: the `AnalysisData` constructor
arguments (sweep-variable name list, data dict, is-regular-grid flag). -/
structure AnalysisData where
  swp_vars : List String
  data : List (String × Entry)
  is_md : Bool
deriving DecidableEq, Repr

/-- The metadata `get_info_from_plotname` extracts from a plot-name line. -/
structure PlotInfo where
  ana_name : String
  ana_type : String
  sim_env : String
  swp_combo : List ℤ
  inner_sweep : String
deriving DecidableEq, Repr

/-- The accumulation dict `ana_dict`, keyed by `(ana_type, sim_env)`.  The
python structure is a dict of dicts; flattening the two nested keys into one
pair key preserves lookup and insertion-order semantics. -/
abbrev AnaDict : Type := List ((String × String) × NbGroup)

/- ---------------------------------------------------------------- -/
/- Kernel-reducible string helpers (same semantics as the core ones) -/
/- ---------------------------------------------------------------- -/

/-- `needle` is a prefix of `hay` on the underlying character lists; this is
`str.startswith` (core `String.startsWith` is iterator-based and not
kernel-reducible). -/
def strStartsWith (hay needle : String) : Bool :=
  needle.data.isPrefixOf hay.data

/-- Python `sig_name.replace('/', '.')`: with single-character arguments,
`str.replace` substitutes every occurrence character-wise. -/
def replaceSlash (s : String) : String :=
  ⟨s.data.map (fun c => if c = '/' then '.' else c)⟩

/-- Lexicographic (code-point) order on character lists: the order python
string comparison uses. -/
def charListLt : List Char → List Char → Bool
  | [], [] => false
  | [], _ :: _ => true
  | _ :: _, [] => false
  | a :: as, b :: bs => if a < b then true else if b < a then false else charListLt as bs

/-- Code-point order on strings (python string `<`). -/
def strLt (a b : String) : Bool :=
  charListLt a.data b.data

/-- Insert into an ascending list (helper for `sortStrings`). -/
def insertStr (x : String) : List String → List String
  | [] => [x]
  | y :: ys => if strLt x y then x :: y :: ys else y :: insertStr x ys

/-- Python `sorted` on strings: ascending code-point order (insertion sort). -/
def sortStrings (l : List String) : List String :=
  l.foldr insertStr []

/-- Parse a decimal token (the behaviour of python `int` on the digit tokens
appearing in nutbin headers; non-digit input fails). -/
def strToNat (s : String) : Option ℕ :=
  if s.data.isEmpty then none
  else s.data.foldl (fun acc c =>
    acc.bind (fun n =>
      if 48 ≤ c.toNat ∧ c.toNat ≤ 57 then some (n * 10 + (c.toNat - 48)) else none))
    (some 0)

/- ------------------------------------ -/
/- Numeric helpers (numpy counterparts) -/
/- ------------------------------------ -/

/-- Truncation toward zero of a rational, the C-style cast a numpy
`dtype=int` conversion applies to each element. -/
def truncQ (q : ℚ) : ℤ :=
  if 0 ≤ q then q.num / (q.den : ℤ) else -((-q.num) / (q.den : ℤ))

/-- `np.linspace(lo, hi, num, dtype=int)`: `num` evenly spaced points from
`lo` to `hi` inclusive, each truncated to an integer. -/
def linspaceInt (lo hi : ℤ) (num : ℕ) : List ℤ :=
  if num = 0 then []
  else if num = 1 then [lo]
  else (List.range num).map (fun (i : ℕ) =>
    truncQ ((lo : ℚ) + (i : ℚ) * ((hi : ℚ) - (lo : ℚ)) / ((num : ℚ) - 1)))

/-- Insert into an ascending integer list (helper for `sortInts`). -/
def insertInt (x : ℤ) : List ℤ → List ℤ
  | [] => [x]
  | y :: ys => if x ≤ y then x :: y :: ys else y :: insertInt x ys

/-- Ascending insertion sort on integers. -/
def sortInts (l : List ℤ) : List ℤ :=
  l.foldr insertInt []

/-- Remove adjacent duplicates (on a sorted list this yields the sorted set
of distinct values, as `np.unique` does). -/
def dedupSorted : List ℤ → List ℤ
  | [] => []
  | [x] => [x]
  | x :: y :: rest => if x = y then dedupSorted (y :: rest) else x :: dedupSorted (y :: rest)

/-- Each element repeated `k` times in place. -/
def repeatEach (k : ℕ) (l : List ℤ) : List ℤ :=
  (l.map (List.replicate k)).flatten

/-- The whole list repeated `k` times. -/
def tileList (k : ℕ) (l : List ℤ) : List ℤ :=
  (List.replicate k l).flatten

/-- Row-major coordinate columns of the Cartesian grid with the given
per-axis values: axis `i`'s column tiles over the axes before it and repeats
each value over the axes after it. -/
def gridColsAux : ℕ → List (List ℤ) → List (List ℤ)
  | _, [] => []
  | pre, u :: rest =>
    tileList pre (repeatEach ((rest.map List.length).prod) u) :: gridColsAux (pre * u.length) rest

/-- Row-major coordinate columns of the Cartesian grid spanned by `uniqs`. -/
def gridCols (uniqs : List (List ℤ)) : List (List ℤ) :=
  gridColsAux 1 uniqs

/-- Modelled from the spec: the external regular-grid detector
`_check_is_md` imported from `.data` (its source is not part of this
repository's given files).  Per the spec it "decides whether a set of sweep
coordinate vectors forms a regular rectangular grid within numeric
tolerance", returning the detected shape (the corner count first, then one
extent per axis) and the deduplicated per-axis coordinate values, or failure
when the vectors are not the row-major enumeration of a full Cartesian grid
(the reconstructor relies on accumulation order already matching the grid's
row-major enumeration).  The tolerances are irrelevant for the exact integer
coordinates nutbin produces and are omitted. -/
def check_is_md (ncorner : ℕ) (cols : List (List ℤ)) : Option (List ℕ × List (List ℤ)) :=
  let uniqs := cols.map (fun c => dedupSorted (sortInts c))
  if cols = gridCols uniqs then some (ncorner :: uniqs.map List.length, uniqs) else none

/- --------------------------------------------------- -/
/- `convert_to_analysis_data` (nutbin.py lines 221-292) -/
/- --------------------------------------------------- -/

/-- Sweep variable names, sweep length and per-axis coordinate columns, as
determined by `convert_to_analysis_data` lines 225-251: the outer-combo rule
(`if swp_combos:` / `else`), then the Monte-Carlo override
(`if self.monte_carlo:`), then the PAC harmonic override
(`if ana_type == 'pac':`), applied in that order so a later rule overwrites
an earlier one. -/
def sweepInfo (monte_carlo : Bool) (ana_type : String) (swp_combos : List (List ℤ))
    (nruns : ℕ) : List String × ℕ × List (List ℤ) :=
  let base : List String × ℕ × List (List ℤ) :=
    if swp_combos.isEmpty then ([], 0, [])
    else
      let num_swp := (swp_combos.headD []).length
      ((List.range num_swp).map (fun i => "sweep" ++ toString i),
       swp_combos.length,
       (List.range num_swp).map (fun i => swp_combos.map (fun row => row.getD i 0)))
  let withMc : List String × ℕ × List (List ℤ) :=
    if monte_carlo then
      (["monte_carlo"], nruns, [linspaceInt 0 ((nruns : ℤ) - 1) nruns])
    else base
  if ana_type = "pac" then
    (["harmonic"], nruns, [linspaceInt (-((nruns / 2 : ℕ) : ℤ)) ((nruns / 2 : ℕ) : ℤ) nruns])
  else withMc

/-- `np.pad(yvec, (0, m - len(yvec)), constant_values=np.nan)`: right-pad a
vector with NaN up to length `m`. -/
def padTo (m : ℕ) (y : List RVal) : List RVal :=
  y ++ List.replicate (m - y.length) RVal.nan

/-- Python `nb_dict['data'][i][sig_name]` (dict lookup; all accumulated runs
carry the same signal names, so a missing name — a `KeyError` upstream — is
defaulted to the empty vector). -/
def runSig (runs : List Run) (i : ℕ) (nm : String) : List RVal :=
  (List.lookup nm (runs.getD i [])).getD []

/-- The per-signal body of the `else` ("combine outer sweeps") loop in
`convert_to_analysis_data` lines 270-287: gather the signal's vector from
every run, NaN-pad on the right to the maximum length when lengths differ,
stack in run order and reshape to `(*swp_shape, max_dim)`; when lengths are
equal, the signal matching the inner sweep is taken verbatim from run 0. -/
def stackSignal (inner_sweep : String) (swp_shape : List ℕ) (swp_len : ℕ)
    (runs : List Run) (nm : String) : String × Entry :=
  let yvecs := (List.range swp_len).map (fun i => runSig runs i nm)
  let sub_dims := yvecs.map List.length
  let max_dim := sub_dims.foldr max 0
  let is_same_len := sub_dims.all (fun d => d = sub_dims.headD 0)
  let nm2 := replaceSlash nm
  if ¬ is_same_len then
    (nm2, Entry.arr ⟨swp_shape ++ [max_dim], (yvecs.map (padTo max_dim)).flatten⟩)
  else if nm2 = inner_sweep then
    (nm2, Entry.vec (yvecs.headD []))
  else
    (nm2, Entry.arr ⟨swp_shape ++ [max_dim], yvecs.flatten⟩)

/-- The "parse each signal" part of `convert_to_analysis_data` (lines
262-287): with no outer sweep, reshape each of run 0's signals directly
(leaving the inner-sweep vector unreshaped); otherwise run `stackSignal` for
every signal name of run 0. -/
def signalEntries (inner_sweep : String) (swp_shape : List ℕ) (swp_len : ℕ)
    (runs : List Run) : List (String × Entry) :=
  if swp_len = 0 then
    (runs.headD []).map (fun p =>
      let nm2 := replaceSlash p.1
      (nm2, if nm2 = inner_sweep then Entry.vec p.2
            else Entry.arr ⟨swp_shape ++ [p.2.length], p.2⟩))
  else
    ((runs.headD []).map Prod.fst).map (stackSignal inner_sweep swp_shape swp_len runs)

/-- `convert_to_analysis_data` (lines 221-292).  The external grid detector
`_check_is_md` is passed in as `mdCheck` (the source calls it with a single
corner and the two tolerances; `check_is_md 1` is its spec-derived model).
On success the detected shape and per-axis values are used (`is_md` true);
on failure the shape degenerates to `(swp_len,)` and every sweep variable
stores the raw `swp_combo_list`.  The inner sweep name, when non-empty, is
appended to the sweep variable list, which is prefixed by `'corner'`. -/
def convert_to_analysis_data (monte_carlo : Bool)
    (mdCheck : List (List ℤ) → Option (List ℕ × List (List ℤ)))
    (nb : NbGroup) (ana_type : String) : AnalysisData :=
  let si := sweepInfo monte_carlo ana_type nb.swp_combos nb.data.length
  let swp_vars := si.1
  let swp_len := si.2.1
  let swp_combo_list := si.2.2
  let all_vars := "corner" :: (if nb.inner_sweep ≠ "" then swp_vars ++ [nb.inner_sweep] else swp_vars)
  match mdCheck swp_combo_list with
  | some (swp_shape, swp_vals) =>
    { swp_vars := all_vars,
      data := (swp_vars.zip swp_vals).map (fun p => (p.1, Entry.axisVals p.2)) ++
        signalEntries nb.inner_sweep swp_shape swp_len nb.data,
      is_md := true }
  | none =>
    { swp_vars := all_vars,
      data := swp_vars.map (fun v => (v, Entry.axisRaw swp_combo_list)) ++
        signalEntries nb.inner_sweep [swp_len] swp_len nb.data,
      is_md := false }

/- -------------------------------------- -/
/- `populate_dict` (nutbin.py lines 151-175) -/
/- -------------------------------------- -/

/-- Append one run (and its outer combo, when non-empty) to the group keyed
`k`, creating the group on first occurrence (`populate_dict` lines
164-175). -/
def updateGroup (k : String × String) (inner_sweep : String) (run : Run)
    (swp_combo : List ℤ) : AnaDict → AnaDict
  | [] =>
    [(k, { data := [run],
           swp_combos := if swp_combo.isEmpty then [] else [swp_combo],
           inner_sweep := inner_sweep })]
  | (k', g) :: rest =>
    if k' = k then
      (k', { g with
             data := g.data ++ [run],
             swp_combos := if swp_combo.isEmpty then g.swp_combos
                           else g.swp_combos ++ [swp_combo] }) :: rest
    else (k', g) :: updateGroup k inner_sweep run swp_combo rest

/-- `populate_dict` (lines 151-175): in Monte-Carlo mode a block whose
analysis name does not start with `'__mc_'` is dropped (the nominal run);
otherwise the block's signal map is appended to its `(ana_type, sim_env)`
group.  The plot-name metadata is taken pre-extracted (`get_info_from_plotname`
is a pure parse of the plot-name text). -/
def populate_dict (monte_carlo : Bool) (d : AnaDict) (info : PlotInfo) (run : Run) :
    AnaDict :=
  if monte_carlo ∧ strStartsWith info.ana_name "__mc_" = false then d
  else updateGroup (info.ana_type, info.sim_env) info.inner_sweep run info.swp_combo d

/- ----------------------------------------- -/
/- `convert_to_sim_data` (nutbin.py lines 210-219) -/
/- ----------------------------------------- -/

/-- The `sim_envs` value handed to `SimData` by `convert_to_sim_data`:
`sim_envs` starts as `[]` and is reassigned to `sorted(sim_env_dict.keys())`
on every iteration of the analysis-type loop, so the last analysis type
iterated wins. -/
def convert_to_sim_data_envs (nb_data : List (String × List (String × NbGroup))) :
    List String :=
  nb_data.foldl (fun _ p => sortStrings (p.2.map Prod.fst)) []

/- ------------------------------------- -/
/- `parse_analysis` (nutbin.py lines 73-107) -/
/- ------------------------------------- -/

/-- The value kind read from the `Flags:` line. -/
inductive ValKind where
  | real : ValKind
  | cplx : ValKind
deriving DecidableEq, Repr

/-- Classification of the type-flag token (`flags[1]`), lines 77-82: `'real'`
and `'complex'` select the numpy dtype; anything else raises
`ValueError(f'Flag type {flags[1]} is not recognized.')`. -/
def classify_flag (tok : String) : Except String ValKind :=
  if tok = "real" then Except.ok ValKind.real
  else if tok = "complex" then Except.ok ValKind.cplx
  else Except.error ("Flag type " ++ tok ++ " is not recognized.")

/-- One analysis block as `parse_analysis` sees it: the already-tokenized
header lines following the plot name, and the decoded big-endian samples the
`np.fromfile` call can draw from. -/
structure RawHeader where
  flagsLine : List String
  numVarsLine : List String
  numPointsLine : List String
  varLines : List (List String)
  payload : List CVal
deriving DecidableEq, Repr

/-- Helper for `takeEvery`: keep the element when the skip counter is zero
(resetting it to `s - 1`), drop it otherwise. -/
def takeEveryAux (s : ℕ) : ℕ → List CVal → List CVal
  | _, [] => []
  | 0, x :: xs => x :: takeEveryAux s (s - 1) xs
  | k + 1, _ :: xs => takeEveryAux s k xs

/-- Python slice `l[::s]` for `s ≥ 1`: every `s`-th element starting at
index 0 (applied after a `drop`, this is the source's `bin_data[idx::num_vars]`). -/
def takeEvery (s : ℕ) (l : List CVal) : List CVal :=
  takeEveryAux s 0 l

/-- The variable names read from the variable lines (lines 89-95): the first
line carries the name at token index 2, later lines at token index 1. -/
def extractVarNames (varLines : List (List String)) (num_vars : ℕ) : List String :=
  (List.range num_vars).map (fun idx =>
    (varLines.getD idx []).getD (if idx = 0 then 2 else 1) "")

/-- `parse_analysis` (lines 73-107): classify the type flag, read
`num_vars` and `num_points` from the last token of their lines, read the
variable names, take `num_vars * num_points` samples
(`np.fromfile(..., count=num_vars * num_points)`), and de-interleave column
`idx` as `bin_data[idx::num_vars]` — taking the real part for the variable
named `'freq'`. -/
def parse_analysis (b : RawHeader) : Except String (List (String × List CVal)) :=
  match classify_flag (b.flagsLine.getD 1 "") with
  | Except.error e => Except.error e
  | Except.ok _ =>
    match strToNat (b.numVarsLine.getLastD ""), strToNat (b.numPointsLine.getLastD "") with
    | some num_vars, some num_points =>
      let var_names := extractVarNames b.varLines num_vars
      let bin_data := b.payload.take (num_vars * num_points)
      Except.ok ((List.range num_vars).map (fun idx =>
        let var_name := var_names.getD idx ""
        let col := takeEvery num_vars (bin_data.drop idx)
        (var_name, if var_name = "freq" then col.map (fun v => (v.1, 0)) else col)))
    | _, _ => Except.error "invalid count token"

/-- The interleaved binary payload layout of a block (spec §6: sample 0 of
var 0, sample 0 of var 1, …, sample 1 of var 0, …): position `j * n + i`
holds sample `j` of variable `i`.  Used to encode synthetic blocks. -/
def interleave (cols : List (List CVal)) (num_points : ℕ) : List CVal :=
  (List.range (num_points * cols.length)).map (fun k =>
    (cols.getD (k % cols.length) []).getD (k / cols.length) (0, 0))

/- ------------------------------------------------ -/
/- Concrete inputs used by witnesses and refutations -/
/- ------------------------------------------------ -/

/-- Four runs with a single one-point signal each, outer combos covering the
grid `{(0,0),(0,1),(1,0),(1,1)}` in row-major file order. -/
def gridGroup (a b c d : ℚ) : NbGroup :=
  { data := [[("v", [RVal.val a])], [("v", [RVal.val b])],
             [("v", [RVal.val c])], [("v", [RVal.val d])]],
    swp_combos := [[0, 0], [0, 1], [1, 0], [1, 1]],
    inner_sweep := "" }

/-- The same four grid points, but arriving in a permuted order: the run with
combo `(0,1)` (signal value 2) arrives first, the run with combo `(0,0)`
(signal value 1) second. -/
def permGroup : NbGroup :=
  { data := [[("v", [RVal.val 2])], [("v", [RVal.val 1])],
             [("v", [RVal.val 3])], [("v", [RVal.val 4])]],
    swp_combos := [[0, 1], [0, 0], [1, 0], [1, 1]],
    inner_sweep := "" }

/-- Two outer-sweep runs with unequal signal lengths (3 and 2). -/
def raggedGroup : NbGroup :=
  { data := [[("time", [RVal.val 0, RVal.val 1, RVal.val 2]),
              ("x", [RVal.val 5, RVal.val 6, RVal.val 7])],
             [("time", [RVal.val 0, RVal.val 1]),
              ("x", [RVal.val 8, RVal.val 9])]],
    swp_combos := [[0], [1]],
    inner_sweep := "time" }

/-- Three runs whose two-level outer combos `{(0,0),(1,1),(2,3)}` do not form
a regular grid. -/
def irregGroup : NbGroup :=
  { data := [[("x", [RVal.val 1, RVal.val 2])],
             [("x", [RVal.val 3, RVal.val 4])],
             [("x", [RVal.val 5, RVal.val 6])]],
    swp_combos := [[0, 0], [1, 1], [2, 3]],
    inner_sweep := "" }

/-- Metadata of one randomized Monte-Carlo run (analysis name carries the
`'__mc_'` prefix). -/
def mcInfo : PlotInfo :=
  { ana_name := "__mc_tran__tb_env", ana_type := "tran", sim_env := "tb_env",
    swp_combo := [], inner_sweep := "time" }

/-- Metadata of the nominal run a Monte-Carlo sweep also emits (analysis
name lacks the `'__mc_'` prefix). -/
def nomInfo : PlotInfo :=
  { ana_name := "tran__tb_env", ana_type := "tran", sim_env := "tb_env",
    swp_combo := [], inner_sweep := "time" }

/-- A one-signal run with the given sample value. -/
def mcRun (k : ℚ) : Run := [("v", [RVal.val k])]

/-- A complex block whose single variable is named `freq` and carries a
nonzero imaginary part. -/
def freqBlock : RawHeader :=
  { flagsLine := ["Flags:", "complex"],
    numVarsLine := ["No.", "Variables:", "1"],
    numPointsLine := ["No.", "Points:", "1"],
    varLines := [["Variables:", "0", "freq"]],
    payload := [((1 : ℚ), (2 : ℚ))] }

/-- A real block with two variables and three points, samples interleaved by
variable. -/
def twoVarBlock : RawHeader :=
  { flagsLine := ["Flags:", "real"],
    numVarsLine := ["No.", "Variables:", "2"],
    numPointsLine := ["No.", "Points:", "3"],
    varLines := [["Variables:", "0", "time"], ["1", "v(out)"]],
    payload := [(0, 0), (10, 0), (1, 0), (11, 0), (2, 0), (12, 0)] }

/- -------------- -/
/- Helper lemmas -/
/- -------------- -/

lemma mem_le_foldr_max {x : ℕ} : ∀ {l : List ℕ}, x ∈ l → x ≤ l.foldr max 0 := by
  intro l
  induction l with
  | nil => intro h; cases h
  | cons y ys ih =>
    intro h
    rcases List.mem_cons.mp h with rfl | h
    · exact le_max_left _ _
    · exact le_trans (ih h) (le_max_right _ _)

lemma mem_insertStr {x a : String} : ∀ {l : List String}, x ∈ insertStr a l ↔ x = a ∨ x ∈ l := by
  intro l
  induction l with
  | nil => simp [insertStr]
  | cons y ys ih =>
    simp only [insertStr]
    split
    · simp
    · simp only [List.mem_cons, ih]
      tauto

lemma mem_sortStrings {x : String} : ∀ {l : List String}, x ∈ sortStrings l ↔ x ∈ l := by
  intro l
  induction l with
  | nil => simp [sortStrings]
  | cons y ys ih =>
    show x ∈ insertStr y (sortStrings ys) ↔ _
    rw [mem_insertStr]
    simp [ih]

lemma truncQ_intCast (n : ℤ) : truncQ (n : ℚ) = n := by
  unfold truncQ
  rcases le_or_lt 0 (n : ℚ) with h | h
  · rw [if_pos h]
    simp [Rat.num_intCast, Rat.den_intCast]
  · rw [if_neg (not_le.mpr h)]
    simp [Rat.num_intCast, Rat.den_intCast]

lemma linspaceInt_step_one (lo hi : ℤ) (num : ℕ) (h2 : 2 ≤ num)
    (hd : hi - lo = (num : ℤ) - 1) :
    linspaceInt lo hi num = (List.range num).map (fun (i : ℕ) => lo + (i : ℤ)) := by
  unfold linspaceInt
  rw [if_neg (by omega), if_neg (by omega)]
  apply List.map_congr_left
  intro i _
  have hcast : (hi : ℚ) - (lo : ℚ) = (num : ℚ) - 1 := by
    have := congrArg (fun z : ℤ => (z : ℚ)) hd
    push_cast at this
    linarith
  have hne : ((num : ℚ) - 1) ≠ 0 := by
    have : (2 : ℚ) ≤ (num : ℚ) := by exact_mod_cast h2
    linarith
  rw [hcast, mul_div_assoc, div_self hne, mul_one]
  have : (lo : ℚ) + (i : ℚ) = ((lo + (i : ℤ) : ℤ) : ℚ) := by push_cast; ring
  rw [this, truncQ_intCast]

lemma rangeMap_getElem? {α : Type} (f : ℕ → α) (n i : ℕ) (h : i < n) :
    ((List.range n).map f)[i]? = some (f i) := by
  rw [List.getElem?_map, List.getElem?_range h]
  rfl

lemma rangeMap_getD {α : Type} (f : ℕ → α) (n i : ℕ) (d : α) (h : i < n) :
    ((List.range n).map f).getD i d = f i := by
  rw [List.getD_eq_getElem?_getD, rangeMap_getElem? f n i h]
  rfl

lemma takeEveryAux_getElem? (s : ℕ) (hs : 1 ≤ s) :
    ∀ (l : List CVal) (k j : ℕ), (takeEveryAux s k l)[j]? = l[k + j * s]? := by
  intro l
  induction l with
  | nil =>
    intro k j
    simp [takeEveryAux]
  | cons x xs ih =>
    intro k j
    cases k with
    | zero =>
      cases j with
      | zero => simp [takeEveryAux]
      | succ j =>
        rw [show takeEveryAux s 0 (x :: xs) = x :: takeEveryAux s (s - 1) xs from rfl]
        rw [List.getElem?_cons_succ, ih]
        rw [show 0 + (j + 1) * s = (s - 1 + j * s) + 1 from by rw [Nat.succ_mul]; omega]
        rw [List.getElem?_cons_succ]
    | succ k =>
      rw [show takeEveryAux s (k + 1) (x :: xs) = takeEveryAux s k xs from rfl]
      rw [ih]
      rw [show (k + 1) + j * s = (k + j * s) + 1 from by omega]
      rw [List.getElem?_cons_succ]

lemma takeEveryAux_length (s : ℕ) (hs : 1 ≤ s) :
    ∀ (l : List CVal) (k : ℕ), (takeEveryAux s k l).length = (l.length - k + s - 1) / s := by
  intro l
  induction l with
  | nil =>
    intro k
    simp only [takeEveryAux, List.length_nil]
    symm
    apply Nat.div_eq_of_lt
    omega
  | cons x xs ih =>
    intro k
    cases k with
    | zero =>
      rw [show takeEveryAux s 0 (x :: xs) = x :: takeEveryAux s (s - 1) xs from rfl]
      simp only [List.length_cons]
      rw [ih (s - 1)]
      rcases le_or_lt (s - 1) xs.length with h | h
      · rw [show xs.length - (s - 1) + s - 1 = xs.length from by omega,
            show xs.length + 1 - 0 + s - 1 = xs.length + s from by omega,
            Nat.add_div_right _ (by omega)]
      · rw [show xs.length - (s - 1) = 0 from by omega]
        have e1 : (0 + s - 1) / s = 0 := Nat.div_eq_of_lt (by omega)
        have e2 : xs.length + 1 - 0 + s - 1 = xs.length + s := by omega
        have e3 : (xs.length + s) / s = 1 := by
          rw [Nat.add_div_right _ (show 0 < s by omega), Nat.div_eq_of_lt (by omega)]
        rw [e1, e2, e3]
    | succ k =>
      rw [show takeEveryAux s (k + 1) (x :: xs) = takeEveryAux s k xs from rfl]
      rw [ih k]
      rw [show (x :: xs).length - (k + 1) + s - 1 = xs.length - k + s - 1 from by
        simp only [List.length_cons]; omega]

lemma takeEvery_getElem? (s : ℕ) (hs : 1 ≤ s) (l : List CVal) (j : ℕ) :
    (takeEvery s l)[j]? = l[j * s]? := by
  rw [takeEvery, takeEveryAux_getElem? s hs l 0 j, Nat.zero_add]

lemma takeEvery_length (s : ℕ) (hs : 1 ≤ s) (l : List CVal) :
    (takeEvery s l).length = (l.length + s - 1) / s := by
  rw [takeEvery, takeEveryAux_length s hs l 0]
  rw [show l.length - 0 + s - 1 = l.length + s - 1 from by omega]

lemma interleave_getD (cols : List (List CVal)) (p n i j : ℕ) (hn : cols.length = n)
    (h1 : 1 ≤ n) (hi : i < n) (hj : j < p) :
    (interleave cols p).getD (j * n + i) (0, 0) = (cols.getD i []).getD j (0, 0) := by
  unfold interleave
  rw [hn]
  have hlt : j * n + i < p * n := by
    have h3 : j * n + i < (j + 1) * n := by rw [Nat.succ_mul]; omega
    have h4 : (j + 1) * n ≤ p * n := Nat.mul_le_mul_right n hj
    omega
  rw [rangeMap_getD _ _ _ _ hlt]
  have hmod : (j * n + i) % n = i := by
    rw [show j * n + i = n * j + i from by ring, Nat.mul_add_mod, Nat.mod_eq_of_lt hi]
  have hdiv : (j * n + i) / n = j := by
    rw [show j * n + i = i + n * j from by ring, Nat.add_mul_div_left i j (by omega),
        Nat.div_eq_of_lt hi]
    omega
  rw [hmod, hdiv]

lemma interleave_length (cols : List (List CVal)) (p : ℕ) :
    (interleave cols p).length = p * cols.length := by
  simp [interleave]

lemma stackSignal_fst (inner : String) (shape : List ℕ) (n : ℕ) (runs : List Run)
    (nm : String) : (stackSignal inner shape n runs nm).1 = replaceSlash nm := by
  unfold stackSignal
  dsimp only
  split
  · rfl
  · split <;> rfl

lemma truncQ_eval (q : ℚ) (z : ℤ) (h : q = (z : ℚ)) : truncQ q = z := by
  rw [h, truncQ_intCast]

/-- An empty accumulated group (placeholder value for map entries whose
contents are irrelevant). -/
def emptyGroup : NbGroup := { data := [], swp_combos := [], inner_sweep := "" }

/- ------------------- -/
/- The claim theorems -/
/- ------------------- -/

/-- C4 (amended): for every group with analysis type `pac` the reconstructor
introduces the single sweep variable `harmonic` with coordinate values
`np.linspace(-H, H, n, dtype=int)` where `H = n // 2`, overriding both the
outer-combo and Monte-Carlo rules; for odd run counts `n = 2k + 1` these
values are exactly the symmetric integer range `-k .. k` (for even `n` the
truncated linspace is not that range — see the counterexample). -/
theorem c4_pac_harmonic :
    (∀ (mc : Bool) (combos : List (List ℤ)) (n : ℕ),
      sweepInfo mc "pac" combos n =
        (["harmonic"], n, [linspaceInt (-((n / 2 : ℕ) : ℤ)) ((n / 2 : ℕ) : ℤ) n])) ∧
    (∀ (mc : Bool) (combos : List (List ℤ)) (k : ℕ),
      sweepInfo mc "pac" combos (2 * k + 1) =
        (["harmonic"], 2 * k + 1,
          [(List.range (2 * k + 1)).map (fun (i : ℕ) => (i : ℤ) - (k : ℤ))])) := by
  have base : ∀ (mc : Bool) (combos : List (List ℤ)) (n : ℕ),
      sweepInfo mc "pac" combos n =
        (["harmonic"], n, [linspaceInt (-((n / 2 : ℕ) : ℤ)) ((n / 2 : ℕ) : ℤ) n]) := by
    intro mc combos n
    unfold sweepInfo
    simp
  refine ⟨base, ?_⟩
  intro mc combos k
  rw [base]
  have hdiv : (2 * k + 1) / 2 = k := by omega
  rw [hdiv]
  cases k with
  | zero => decide
  | succ k =>
    rw [linspaceInt_step_one _ _ _ (by omega) (by push_cast; ring)]
    apply congrArg (fun l => (["harmonic"], 2 * (k + 1) + 1, [l]))
    apply List.map_congr_left
    intro i _
    ring

/-- C4 counterexample: with an even run count (here 2) the `pac` harmonic
values are the integer-truncated `np.linspace(-1, 1, 2)`, namely `[-1, 1]`,
which is not the symmetric integer range `-1 .. 1` the claim requires. -/
theorem c4_counterexample :
    sweepInfo false "pac" [] 2 = (["harmonic"], 2, [[-1, 1]]) ∧
    ([(-1 : ℤ), 1] ≠ [-1, 0, 1]) := by
  have hl : linspaceInt (-((2 / 2 : ℕ) : ℤ)) ((2 / 2 : ℕ) : ℤ) 2 = [-1, 1] := by
    unfold linspaceInt
    norm_num
    rw [show List.range 2 = [0, 1] from rfl]
    rw [List.map_cons, List.map_cons, List.map_nil]
    rw [truncQ_eval _ (-1) (by norm_num), truncQ_eval _ 1 (by norm_num)]
  constructor
  · unfold sweepInfo
    rw [if_pos rfl, hl]
  · decide

/-- C5: in Monte-Carlo mode `populate_dict` silently drops any block whose
analysis name does not start with `'__mc_'`, so five randomized runs plus
one nominal run accumulate into a group of exactly five runs, for which the
Monte-Carlo rule produces the single sweep variable `monte_carlo` with
coordinate values `[0, 1, 2, 3, 4]`. -/
theorem c5_mc_filter :
    (∀ (d : AnaDict) (info : PlotInfo) (run : Run),
      strStartsWith info.ana_name "__mc_" = false →
      populate_dict true d info run = d) ∧
    (List.foldl (fun d p => populate_dict true d p.1 p.2) ([] : AnaDict)
        [(mcInfo, mcRun 1), (mcInfo, mcRun 2), (mcInfo, mcRun 3),
         (mcInfo, mcRun 4), (mcInfo, mcRun 5), (nomInfo, mcRun 6)] =
      [(("tran", "tb_env"),
        { data := [mcRun 1, mcRun 2, mcRun 3, mcRun 4, mcRun 5],
          swp_combos := [], inner_sweep := "time" })]) ∧
    sweepInfo true "tran" [] 5 = (["monte_carlo"], 5, [[0, 1, 2, 3, 4]]) := by
  refine ⟨?_, by decide, ?_⟩
  · intro d info run h
    simp [populate_dict, h]
  · have hl : linspaceInt 0 (((5 : ℕ) : ℤ) - 1) 5 = [0, 1, 2, 3, 4] := by
      rw [linspaceInt_step_one 0 (((5 : ℕ) : ℤ) - 1) 5 (by omega) (by norm_num)]
      decide
    unfold sweepInfo
    rw [if_neg (by decide), if_pos rfl, hl]

/-- C5 witness: the nominal run of the Monte-Carlo scenario is discarded
without touching the accumulation dict. -/
theorem c5_mc_filter_witness :
    populate_dict true [] nomInfo (mcRun 6) = [] :=
  c5_mc_filter.1 [] nomInfo (mcRun 6) (by decide)

/-- C7: the block reader's type-flag classification succeeds exactly on the
tokens `'real'` and `'complex'` and raises the format error on every other
token, and `parse_analysis` propagates that error. -/
theorem c7_flag_classification :
    classify_flag "real" = Except.ok ValKind.real ∧
    classify_flag "complex" = Except.ok ValKind.cplx ∧
    (∀ t : String, t ≠ "real" → t ≠ "complex" →
      classify_flag t = Except.error ("Flag type " ++ t ++ " is not recognized.")) ∧
    (∀ b : RawHeader, b.flagsLine.getD 1 "" ≠ "real" → b.flagsLine.getD 1 "" ≠ "complex" →
      parse_analysis b =
        Except.error ("Flag type " ++ b.flagsLine.getD 1 "" ++ " is not recognized.")) := by
  refine ⟨rfl, rfl, ?_, ?_⟩
  · intro t h1 h2
    simp [classify_flag, h1, h2]
  · intro b h1 h2
    rw [List.getD_eq_getElem?_getD] at h1 h2
    simp [parse_analysis, classify_flag, h1, h2]

/-- C7 witness: the unrecognized token `'volts'` is rejected, both by the
classifier and by `parse_analysis` on a whole block. -/
theorem c7_flag_classification_witness :
    classify_flag "volts" = Except.error ("Flag type " ++ "volts" ++ " is not recognized.") ∧
    parse_analysis { flagsLine := ["Flags:", "volts"], numVarsLine := [],
                     numPointsLine := [], varLines := [], payload := [] } =
      Except.error ("Flag type " ++ "volts" ++ " is not recognized.") :=
  ⟨c7_flag_classification.2.2.1 "volts" (by decide) (by decide),
   c7_flag_classification.2.2.2 _ (by decide) (by decide)⟩

/-- C8: the key under which a signal is stored is its name with every `'/'`
replaced by `'.'` (names without `'/'` are stored unchanged): `replaceSlash`
maps characters pointwise, its image never contains `'/'`, it is the
identity on slash-free names, the signal part of the data dict is keyed by
`replaceSlash` of the run-0 signal names, and `convert_to_analysis_data`
builds its data dict as sweep-variable entries followed by exactly that
signal part. -/
theorem c8_slash_keys :
    (∀ s : String, (replaceSlash s).data = s.data.map (fun c => if c = '/' then '.' else c)) ∧
    (∀ s : String, '/' ∉ (replaceSlash s).data) ∧
    (∀ s : String, '/' ∉ s.data → replaceSlash s = s) ∧
    (∀ (inner : String) (shape : List ℕ) (n : ℕ) (runs : List Run),
      (signalEntries inner shape n runs).map Prod.fst =
        ((runs.headD []).map Prod.fst).map replaceSlash) ∧
    (∀ (mc : Bool) (mdCheck : List (List ℤ) → Option (List ℕ × List (List ℤ)))
      (nb : NbGroup) (t : String),
      ∃ (axes : List (String × Entry)) (shape : List ℕ),
        (convert_to_analysis_data mc mdCheck nb t).data =
          axes ++ signalEntries nb.inner_sweep shape
            (sweepInfo mc t nb.swp_combos nb.data.length).2.1 nb.data ∧
        axes.map Prod.fst ⊆ (sweepInfo mc t nb.swp_combos nb.data.length).1) := by
  refine ⟨fun s => rfl, ?_, ?_, ?_, ?_⟩
  · intro s h
    simp only [replaceSlash, List.mem_map] at h
    obtain ⟨c, _, hc⟩ := h
    by_cases hc' : c = '/'
    · rw [if_pos hc'] at hc
      exact absurd hc (by decide)
    · rw [if_neg hc'] at hc
      exact hc' hc
  · intro s h
    have hmap : s.data.map (fun c => if c = '/' then '.' else c) = s.data := by
      rw [List.map_congr_left (g := id) ?_, List.map_id]
      intro c hcmem
      have : c ≠ '/' := fun hc => h (hc ▸ hcmem)
      simp [this]
    rcases s with ⟨d⟩
    exact congrArg String.mk hmap
  · intro inner shape n runs
    unfold signalEntries
    split
    · simp [List.map_map, Function.comp]
    · rw [List.map_map]
      apply List.map_congr_left
      intro nm _
      simp only [Function.comp_apply]
      exact stackSignal_fst inner shape n runs nm
  · intro mc mdCheck nb t
    unfold convert_to_analysis_data
    dsimp only
    cases h : mdCheck (sweepInfo mc t nb.swp_combos nb.data.length).2.2 with
    | some v =>
      obtain ⟨shape', vals'⟩ := v
      refine ⟨_, shape', rfl, ?_⟩
      intro x hx
      simp only [List.map_map, List.mem_map, Function.comp] at hx
      obtain ⟨p, hp, rfl⟩ := hx
      exact (List.of_mem_zip hp).1
    | none =>
      refine ⟨_, [(sweepInfo mc t nb.swp_combos nb.data.length).2.1], rfl, ?_⟩
      intro x hx
      simp only [List.map_map, List.mem_map, Function.comp] at hx
      obtain ⟨v, hv, rfl⟩ := hx
      exact hv

/-- C8 witness: a slash-free signal name is stored under itself. -/
theorem c8_slash_keys_witness :
    replaceSlash "v(out)" = "v(out)" :=
  c8_slash_keys.2.2.1 "v(out)" (by decide)

/-- C9: with zero sweep levels (no outer combos, Monte-Carlo off, analysis
type not `pac`) the reconstruction reads signals from run 0 only — any
further accumulated runs do not change the output at all. -/
theorem c9_no_sweep_uses_run0 :
    ∀ (mdCheck : List (List ℤ) → Option (List ℕ × List (List ℤ)))
      (r0 : Run) (rest : List Run) (inner t : String),
      t ≠ "pac" →
      convert_to_analysis_data false mdCheck
          { data := r0 :: rest, swp_combos := [], inner_sweep := inner } t =
        convert_to_analysis_data false mdCheck
          { data := [r0], swp_combos := [], inner_sweep := inner } t := by
  intro mdCheck r0 rest inner t ht
  unfold convert_to_analysis_data
  have hsi : ∀ (m : ℕ), sweepInfo false t [] m = ([], 0, []) := by
    intro m
    unfold sweepInfo
    simp [ht]
  simp only [hsi]
  cases mdCheck [] with
  | some v => simp [signalEntries]
  | none => simp [signalEntries]

/-- C9 witness: a second accumulated run is ignored on the no-sweep path. -/
theorem c9_no_sweep_uses_run0_witness :
    convert_to_analysis_data false (fun _ => none)
        { data := [mcRun 1, mcRun 2], swp_combos := [], inner_sweep := "" } "tran" =
      convert_to_analysis_data false (fun _ => none)
        { data := [mcRun 1], swp_combos := [], inner_sweep := "" } "tran" :=
  c9_no_sweep_uses_run0 (fun _ => none) (mcRun 1) [mcRun 2] "" "tran" (by decide)

/-- C10: the environment list handed to the output container is the sorted
environment-key set of the last analysis type iterated, and any environment
absent from that last key set (even if present for an earlier analysis
type) is absent from the list. -/
theorem c10_envs_last_ana_type :
    ∀ (init : List (String × List (String × NbGroup)))
      (lastEntry : String × List (String × NbGroup)),
      convert_to_sim_data_envs (init ++ [lastEntry]) =
        sortStrings (lastEntry.2.map Prod.fst) ∧
      ∀ e : String, e ∉ lastEntry.2.map Prod.fst →
        e ∉ convert_to_sim_data_envs (init ++ [lastEntry]) := by
  intro init lastEntry
  have h1 : convert_to_sim_data_envs (init ++ [lastEntry]) =
      sortStrings (lastEntry.2.map Prod.fst) := by
    simp [convert_to_sim_data_envs, List.foldl_append]
  refine ⟨h1, ?_⟩
  intro e he hmem
  rw [h1] at hmem
  exact he (mem_sortStrings.mp hmem)

/-- C3: when the per-run vectors of a signal have unequal lengths, each
shorter vector is right-padded with NaN up to the maximum observed length
before stacking — the stacked inner axis is that maximum, each padded row
restricted to its original length is unchanged and its tail is NaN — and
when all lengths are equal the rows are stacked without any padding. -/
theorem c3_nan_padding :
    ∀ (inner : String) (shape : List ℕ) (n : ℕ) (runs : List Run) (nm : String)
      (yvecs : List (List RVal)) (m : ℕ),
      yvecs = (List.range n).map (fun i => runSig runs i nm) →
      m = (yvecs.map List.length).foldr max 0 →
      (¬ ((yvecs.map List.length).all
          (fun d => d = (yvecs.map List.length).headD 0)) = true →
        stackSignal inner shape n runs nm =
          (replaceSlash nm, Entry.arr ⟨shape ++ [m], (yvecs.map (padTo m)).flatten⟩) ∧
        ∀ y ∈ yvecs,
          (padTo m y).length = m ∧
          (padTo m y).take y.length = y ∧
          ∀ k, y.length ≤ k → k < m → (padTo m y).getD k RVal.nan = RVal.nan) ∧
      (((yvecs.map List.length).all
          (fun d => d = (yvecs.map List.length).headD 0)) = true →
        replaceSlash nm ≠ inner →
        stackSignal inner shape n runs nm =
          (replaceSlash nm, Entry.arr ⟨shape ++ [m], yvecs.flatten⟩)) := by
  intro inner shape n runs nm yvecs m hy hm
  have hpad : ∀ y ∈ yvecs,
      (padTo m y).length = m ∧
      (padTo m y).take y.length = y ∧
      ∀ k, y.length ≤ k → k < m → (padTo m y).getD k RVal.nan = RVal.nan := by
    intro y hymem
    have hle : y.length ≤ m := by
      rw [hm]
      exact mem_le_foldr_max (List.mem_map_of_mem List.length hymem)
    refine ⟨?_, ?_, ?_⟩
    · simp [padTo]
      omega
    · exact List.take_left y _
    · intro k hk1 hk2
      have hrep : (List.replicate (m - y.length) RVal.nan)[k - y.length]? =
          some RVal.nan := by
        rw [List.getElem?_replicate]
        simp [show k - y.length < m - y.length from by omega]
      rw [padTo, List.getD_eq_getElem?_getD, List.getElem?_append_right hk1, hrep]
      rfl
  constructor
  · intro hns
    refine ⟨?_, hpad⟩
    unfold stackSignal
    dsimp only
    rw [← hy, if_pos hns, ← hm]
  · intro hs hne
    unfold stackSignal
    dsimp only
    rw [← hy]
    rw [if_neg (fun hC => hC hs), if_neg hne, ← hm]

/-- C3 witness: two runs of lengths 3 and 2 stack to inner length 3 with the
second run's tail NaN-filled. -/
theorem c3_nan_padding_witness :
    stackSignal "time" [1, 2] 2 raggedGroup.data "x" =
      ("x", Entry.arr ⟨[1, 2, 3],
        [RVal.val 5, RVal.val 6, RVal.val 7, RVal.val 8, RVal.val 9, RVal.nan]⟩) := by
  have h := (c3_nan_padding "time" [1, 2] 2 raggedGroup.data "x"
      ((List.range 2).map (fun i => runSig raggedGroup.data i "x")) 3
      rfl (by decide)).1 (by decide)
  rw [h.1]
  decide

/-- C6 (amended): when the grid detector fails, the reconstruction is marked
non-regular, the outer shape degenerates to `(swp_len,)`, and every sweep
variable stores the entire raw `swp_combo_list` (the list of all axis
columns, the same value for each variable — not that variable's own column,
see the counterexample). -/
theorem c6_degenerate_shape :
    ∀ (mc : Bool) (mdCheck : List (List ℤ) → Option (List ℕ × List (List ℤ)))
      (nb : NbGroup) (t : String),
      mdCheck (sweepInfo mc t nb.swp_combos nb.data.length).2.2 = none →
      (convert_to_analysis_data mc mdCheck nb t).is_md = false ∧
      (convert_to_analysis_data mc mdCheck nb t).data =
        (sweepInfo mc t nb.swp_combos nb.data.length).1.map
          (fun v => (v, Entry.axisRaw (sweepInfo mc t nb.swp_combos nb.data.length).2.2)) ++
        signalEntries nb.inner_sweep [(sweepInfo mc t nb.swp_combos nb.data.length).2.1]
          (sweepInfo mc t nb.swp_combos nb.data.length).2.1 nb.data := by
  intro mc mdCheck nb t h
  unfold convert_to_analysis_data
  dsimp only
  rw [h]
  exact ⟨rfl, rfl⟩

/-- C6 counterexample: on three runs with irregular two-level combos
`{(0,0),(1,1),(2,3)}` detection fails and `sweep0` is stored as the full
raw list `[[0,1,2],[0,1,3]]` of both axis columns — not as its own raw
value list `[0,1,2]` as the claim states (the degenerate shape `(3,)` part
of the claim does hold: the signal array is shaped `(3, 2)`). -/
theorem c6_counterexample :
    convert_to_analysis_data false (check_is_md 1) irregGroup "tran" =
      { swp_vars := ["corner", "sweep0", "sweep1"],
        data := [("sweep0", Entry.axisRaw [[0, 1, 2], [0, 1, 3]]),
                 ("sweep1", Entry.axisRaw [[0, 1, 2], [0, 1, 3]]),
                 ("x", Entry.arr ⟨[3, 2], [RVal.val 1, RVal.val 2, RVal.val 3,
                                           RVal.val 4, RVal.val 5, RVal.val 6]⟩)],
        is_md := false } ∧
    Entry.axisRaw [[0, 1, 2], [0, 1, 3]] ≠ Entry.axisVals [0, 1, 2] := by
  exact ⟨by decide, by decide⟩

/-- C6 witness: the degenerate path is taken on the irregular group. -/
theorem c6_degenerate_shape_witness :
    (convert_to_analysis_data false (check_is_md 1) irregGroup "tran").is_md = false :=
  (c6_degenerate_shape false (check_is_md 1) irregGroup "tran" (by decide)).1

/-- C1 (amended): four runs whose outer combos cover the grid
`{(0,0),(0,1),(1,0),(1,1)}` in row-major arrival order reconstruct to outer
shape `(2,2)` (full shape `(1,2,2,1)` with the corner and inner axes), with
the run of combo `(i,j)` placed at array coordinate `(i,j)`; this placement
is by arrival position, which coincides with the combo coordinate only
because arrival order is row-major (the permuted-arrival counterexample
shows the claim's "any arrival order" part fails). -/
theorem c1_grid_placement :
    ∀ a b c d : ℚ,
      convert_to_analysis_data false (check_is_md 1) (gridGroup a b c d) "tran" =
        { swp_vars := ["corner", "sweep0", "sweep1"],
          data := [("sweep0", Entry.axisVals [0, 1]), ("sweep1", Entry.axisVals [0, 1]),
                   ("v", Entry.arr ⟨[1, 2, 2, 1],
                     [RVal.val a, RVal.val b, RVal.val c, RVal.val d]⟩)],
          is_md := true } ∧
      (∀ i j : ℕ, i < 2 → j < 2 →
        (gridGroup a b c d).swp_combos.getD (2 * i + j) [] = [(i : ℤ), (j : ℤ)] ∧
        [RVal.val a, RVal.val b, RVal.val c, RVal.val d].getD (2 * i + j) RVal.nan =
          (runSig (gridGroup a b c d).data (2 * i + j) "v").getD 0 RVal.nan) := by
  intro a b c d
  constructor
  · rfl
  · intro i j hi hj
    interval_cases i <;> interval_cases j <;> exact ⟨rfl, rfl⟩

/-- C1 witness: the amended placement statement at concrete values. -/
theorem c1_grid_placement_witness :
    (gridGroup 1 2 3 4).swp_combos.getD (2 * 1 + 0) [] = [(1 : ℤ), 0] ∧
    [RVal.val 1, RVal.val 2, RVal.val 3, RVal.val 4].getD (2 * 1 + 0) RVal.nan =
      (runSig (gridGroup 1 2 3 4).data (2 * 1 + 0) "v").getD 0 RVal.nan :=
  (c1_grid_placement 1 2 3 4).2 1 0 (by decide) (by decide)

/-- C1 counterexample: the same four grid points arriving in a permuted
order (the combo-(0,1) run first) are not re-sorted: grid detection fails,
the stored array keeps arrival order with degenerate shape `(4, 1)`, and it
differs from the claim's required `(2,2)`-shaped combo-placed array. -/
theorem c1_counterexample :
    convert_to_analysis_data false (check_is_md 1) permGroup "tran" =
      { swp_vars := ["corner", "sweep0", "sweep1"],
        data := [("sweep0", Entry.axisRaw [[0, 0, 1, 1], [1, 0, 0, 1]]),
                 ("sweep1", Entry.axisRaw [[0, 0, 1, 1], [1, 0, 0, 1]]),
                 ("v", Entry.arr ⟨[4, 1],
                   [RVal.val 2, RVal.val 1, RVal.val 3, RVal.val 4]⟩)],
        is_md := false } ∧
    Entry.arr ⟨[4, 1], [RVal.val 2, RVal.val 1, RVal.val 3, RVal.val 4]⟩ ≠
      Entry.arr ⟨[1, 2, 2, 1], [RVal.val 1, RVal.val 2, RVal.val 3, RVal.val 4]⟩ := by
  exact ⟨by decide, by decide⟩

lemma parse_analysis_ok (b : RawHeader) (n p : ℕ)
    (hflag : b.flagsLine.getD 1 "" = "real" ∨ b.flagsLine.getD 1 "" = "complex")
    (hn : strToNat (b.numVarsLine.getLastD "") = some n)
    (hp : strToNat (b.numPointsLine.getLastD "") = some p) :
    parse_analysis b = Except.ok ((List.range n).map (fun idx =>
      ((extractVarNames b.varLines n).getD idx "",
        if (extractVarNames b.varLines n).getD idx "" = "freq"
        then (takeEvery n ((b.payload.take (n * p)).drop idx)).map (fun v => (v.1, 0))
        else takeEvery n ((b.payload.take (n * p)).drop idx)))) := by
  unfold parse_analysis
  rw [List.getLastD_eq_getLast?] at hn hp
  rcases hflag with h | h <;> rw [h] <;> simp [classify_flag, hn, hp]

lemma column_length (n p idx : ℕ) (payload : List CVal) (hn : 1 ≤ n) (hp : 1 ≤ p)
    (hidx : idx < n) (hlen : n * p ≤ payload.length) :
    (takeEvery n ((payload.take (n * p)).drop idx)).length = p := by
  have hbin : (payload.take (n * p)).length = n * p := by
    rw [List.length_take]
    omega
  rw [takeEvery_length n hn, List.length_drop, hbin]
  have hnp : n ≤ n * p := Nat.le_mul_of_pos_right n hp
  rw [show n * p - idx + n - 1 = (n - 1 - idx) + n * p from by omega,
      Nat.add_mul_div_left _ _ (show 0 < n by omega),
      Nat.div_eq_of_lt (by omega)]
  omega

lemma column_getElem (n p idx j : ℕ) (payload : List CVal) (hn : 1 ≤ n)
    (hidx : idx < n) (hj : j < p) (hlen : n * p ≤ payload.length) :
    (takeEvery n ((payload.take (n * p)).drop idx))[j]? =
      some (payload.getD (j * n + idx) (0, 0)) := by
  rw [takeEvery_getElem? n hn, List.getElem?_drop]
  have hk : idx + j * n < n * p := by
    have h3 : j * n + idx < (j + 1) * n := by rw [Nat.succ_mul]; omega
    have h4 : (j + 1) * n ≤ p * n := Nat.mul_le_mul_right n hj
    have h5 : p * n = n * p := Nat.mul_comm p n
    omega
  rw [List.getElem?_take]
  simp only [hk, if_true]
  have hk2 : j * n + idx < payload.length := by omega
  rw [show idx + j * n = j * n + idx from Nat.add_comm idx (j * n)]
  rw [List.getElem?_eq_getElem hk2, List.getD_eq_getElem _ _ hk2]

/-- C2 (amended): for every well-formed block (recognized type flag,
parseable counts, `num_vars, num_points ≥ 1`, payload of at least
`num_vars * num_points` samples) the reader returns exactly `num_vars` named
columns, each of length `num_points`, using exactly the first
`num_vars * num_points` payload samples, with sample `j` of variable `i`
equal to payload element `j * num_vars + i` — except for a variable named
`'freq'`, whose samples are the real parts of those elements; parsing any
encoding of interleaved synthetic columns (none named `'freq'`) reproduces
the columns exactly. -/
theorem c2_block_reader :
    (∀ (b : RawHeader) (n p : ℕ),
      (b.flagsLine.getD 1 "" = "real" ∨ b.flagsLine.getD 1 "" = "complex") →
      strToNat (b.numVarsLine.getLastD "") = some n →
      strToNat (b.numPointsLine.getLastD "") = some p →
      1 ≤ n → 1 ≤ p → n * p ≤ b.payload.length →
      ∃ cols : List (String × List CVal),
        parse_analysis b = Except.ok cols ∧
        cols.length = n ∧
        cols.map Prod.fst = extractVarNames b.varLines n ∧
        (∀ q ∈ cols, q.2.length = p) ∧
        (∀ i j : ℕ, i < n → j < p →
          (cols.getD i ("", [])).2[j]? =
            some (if (extractVarNames b.varLines n).getD i "" = "freq"
                  then ((b.payload.getD (j * n + i) (0, 0)).1, 0)
                  else b.payload.getD (j * n + i) (0, 0)))) ∧
    (∀ (b : RawHeader) (n p : ℕ) (cols0 : List (List CVal)),
      (b.flagsLine.getD 1 "" = "real" ∨ b.flagsLine.getD 1 "" = "complex") →
      strToNat (b.numVarsLine.getLastD "") = some n →
      strToNat (b.numPointsLine.getLastD "") = some p →
      1 ≤ n → 1 ≤ p →
      b.payload = interleave cols0 p →
      cols0.length = n →
      (∀ c ∈ cols0, c.length = p) →
      (∀ i : ℕ, i < n → (extractVarNames b.varLines n).getD i "" ≠ "freq") →
      ∃ cols : List (String × List CVal),
        parse_analysis b = Except.ok cols ∧
        ∀ i : ℕ, i < n → (cols.getD i ("", [])).2 = cols0.getD i []) := by
  have hA : ∀ (b : RawHeader) (n p : ℕ),
      (b.flagsLine.getD 1 "" = "real" ∨ b.flagsLine.getD 1 "" = "complex") →
      strToNat (b.numVarsLine.getLastD "") = some n →
      strToNat (b.numPointsLine.getLastD "") = some p →
      1 ≤ n → 1 ≤ p → n * p ≤ b.payload.length →
      ∃ cols : List (String × List CVal),
        parse_analysis b = Except.ok cols ∧
        cols.length = n ∧
        cols.map Prod.fst = extractVarNames b.varLines n ∧
        (∀ q ∈ cols, q.2.length = p) ∧
        (∀ i j : ℕ, i < n → j < p →
          (cols.getD i ("", [])).2[j]? =
            some (if (extractVarNames b.varLines n).getD i "" = "freq"
                  then ((b.payload.getD (j * n + i) (0, 0)).1, 0)
                  else b.payload.getD (j * n + i) (0, 0))) := by
    intro b n p hflag hn hp hn1 hp1 hlen
    refine ⟨_, parse_analysis_ok b n p hflag hn hp, by simp, ?_, ?_, ?_⟩
    · rw [List.map_map]
      unfold extractVarNames
      apply List.map_congr_left
      intro idx hidx
      simp only [Function.comp_apply]
      exact rangeMap_getD _ n idx "" (List.mem_range.mp hidx)
    · intro q hq
      simp only [List.mem_map, List.mem_range] at hq
      obtain ⟨idx, hidx, rfl⟩ := hq
      by_cases hf : (extractVarNames b.varLines n).getD idx "" = "freq"
      · rw [if_pos hf, List.length_map]
        exact column_length n p idx b.payload hn1 hp1 hidx hlen
      · rw [if_neg hf]
        exact column_length n p idx b.payload hn1 hp1 hidx hlen
    · intro i j hi hj
      rw [rangeMap_getD _ n i _ hi]
      dsimp only
      by_cases hf : (extractVarNames b.varLines n).getD i "" = "freq"
      · rw [if_pos hf, if_pos hf]
        rw [List.getElem?_map, column_getElem n p i j b.payload hn1 hi hj hlen]
        rfl
      · rw [if_neg hf, if_neg hf]
        exact column_getElem n p i j b.payload hn1 hi hj hlen
  refine ⟨hA, ?_⟩
  intro b n p cols0 hflag hn hp hn1 hp1 hpl hlen0 hclen hnofreq
  have hlen : n * p ≤ b.payload.length := by
    rw [hpl, interleave_length, hlen0]
    exact le_of_eq (Nat.mul_comm n p)
  obtain ⟨cols, hok, hclen2, _, hlens, hsample⟩ := hA b n p hflag hn hp hn1 hp1 hlen
  refine ⟨cols, hok, ?_⟩
  intro i hi
  have hmem : cols.getD i ("", []) ∈ cols := by
    rw [List.getD_eq_getElem _ _ (by omega)]
    exact List.getElem_mem _
  have h1 : (cols.getD i ("", [])).2.length = p := hlens _ hmem
  have h2 : (cols0.getD i []).length = p := by
    apply hclen
    rw [List.getD_eq_getElem _ _ (by omega)]
    exact List.getElem_mem _
  apply List.ext_getElem?
  intro j
  rcases lt_or_ge j p with hj | hj
  · rw [hsample i j hi hj, if_neg (hnofreq i hi), hpl,
        interleave_getD cols0 p n i j hlen0 hn1 hi hj,
        List.getD_eq_getElem _ _ (by omega), List.getElem?_eq_getElem (by omega)]
  · rw [List.getElem?_eq_none (by omega), List.getElem?_eq_none (by omega)]

/-- C2 counterexample: a complex block whose variable is named `freq` with a
nonzero imaginary sample: the stored sample is the real part `(1, 0)`, not
the payload element `(1, 2)` at position `j * num_vars + i = 0` the claim
requires. -/
theorem c2_counterexample :
    parse_analysis freqBlock = Except.ok [("freq", [((1 : ℚ), (0 : ℚ))])] ∧
    ((1 : ℚ), (0 : ℚ)) ≠ freqBlock.payload.getD 0 ((0 : ℚ), (0 : ℚ)) := by
  exact ⟨rfl, by decide⟩

/-- C2 witness: the two-variable three-point block parses into two columns
of length 3 with the de-interleaved sample placement. -/
theorem c2_block_reader_witness :
    ∃ cols : List (String × List CVal),
      parse_analysis twoVarBlock = Except.ok cols ∧
      cols.length = 2 ∧
      cols.map Prod.fst = extractVarNames twoVarBlock.varLines 2 ∧
      (∀ q ∈ cols, q.2.length = 3) ∧
      (∀ i j : ℕ, i < 2 → j < 3 →
        (cols.getD i ("", [])).2[j]? =
          some (if (extractVarNames twoVarBlock.varLines 2).getD i "" = "freq"
                then ((twoVarBlock.payload.getD (j * 2 + i) (0, 0)).1, 0)
                else twoVarBlock.payload.getD (j * 2 + i) (0, 0))) :=
  c2_block_reader.1 twoVarBlock 2 3 (Or.inl (by decide)) (by decide) (by decide)
    (by decide) (by decide) (by decide)

/-- C10 witness: an environment seen only by an earlier analysis type is
absent from the final environment list. -/
theorem c10_envs_last_ana_type_witness :
    "env_b" ∉ convert_to_sim_data_envs
      ([("ac", [("env_b", emptyGroup)])] ++
        [("tran", [("env_a", emptyGroup), ("env_c", emptyGroup)])]) :=
  (c10_envs_last_ana_type [("ac", [("env_b", emptyGroup)])]
    ("tran", [("env_a", emptyGroup), ("env_c", emptyGroup)])).2 "env_b" (by decide)

end NutBin
